import Mathlib

/-!
Verification of the flavor data-access layer in `nova/objects/flavor.py`.

The development shallowly embeds the module: a flavor row of the primary
(API) database and of the legacy database is a `FlavorRow`; the two stores
are explicit states (`ApiDB`, `LegacyDB`) threaded through the operations;
fallible Python functions become `Except FlavorErr` values.  The pure list
pipeline of `_flavor_get_all_db` (`_flavor_union_list`, `_sort_flavor_list`,
`_flavor_list_by_marker`, `_limit_flavor_list`) is translated function by
function.  Python `sorted` is a stable sort by key; it is embedded as
`List.insertionSort`, which is provably sorted, a permutation, and stable,
the three properties that determine the result of any stable sort.
The float column `rxtx_factor` takes part in no claim and is omitted from
the row model.
-/

namespace Nova

open List

/-- Authorization context: the fields of a request context that
`flavor.py` reads (`context.is_admin`, `context.project_id`). -/
structure Ctx where
  is_admin : Bool
  project_id : Option String
deriving DecidableEq

/-- The values dict handed to `_flavor_create_db`: the column values of a
flavor without the internal autoincrement `id` (plus the optional
`extra_specs` key/value pairs the function also accepts).  The `deleted`
marker defaults to 0 as in the database schema; `_migrate_flavor_to_api`
passes a full row dict, so the field is kept here. -/
structure FlavorValues where
  name : String
  memory_mb : Nat
  vcpus : Nat
  root_gb : Nat
  ephemeral_gb : Nat
  flavorid : String
  swap : Nat
  vcpu_weight : Option Nat
  disabled : Bool
  is_public : Bool
  extra_specs : List (String × String) := []
  deleted : Nat := 0
deriving DecidableEq

/-- A row of the `flavors` table (`api_models.Flavors`), also used for the
logically identical legacy-store rows.  `deleted = 0` means live; the
oslo soft-delete writes the row id into `deleted`. -/
structure FlavorRow where
  id : Nat
  name : String
  memory_mb : Nat
  vcpus : Nat
  root_gb : Nat
  ephemeral_gb : Nat
  flavorid : String
  swap : Nat
  vcpu_weight : Option Nat
  disabled : Bool
  is_public : Bool
  deleted : Nat
deriving DecidableEq

/-- A row of `flavor_extra_specs` (`api_models.FlavorExtraSpecs`). -/
structure ExtraSpecRow where
  id : Nat
  flavor_id : Nat
  key : String
  value : String
  deleted : Nat
deriving DecidableEq

/-- A row of `flavor_projects` (`api_models.FlavorProjects`): an access
grant of a flavor to a project. -/
structure ProjectRow where
  id : Nat
  flavor_id : Nat
  project_id : String
  deleted : Nat
deriving DecidableEq

/-- The primary (API) database state: the three tables of
`api_models.py` together with their autoincrement counters. -/
structure ApiDB where
  flavors : List FlavorRow := []
  extra_specs : List ExtraSpecRow := []
  projects : List ProjectRow := []
  next_flavor_id : Nat := 1
  next_spec_id : Nat := 1
  next_project_id : Nat := 1
deriving DecidableEq

/-- The legacy database state, logically the same schema. -/
structure LegacyDB where
  flavors : List FlavorRow := []
  extra_specs : List ExtraSpecRow := []
  projects : List ProjectRow := []
deriving DecidableEq

/-- The domain errors raised by `flavor.py` that the claims mention. -/
inductive FlavorErr where
  | flavorNotFound (flavor_id : String)
  | flavorNotFoundByName (name : String)
  | flavorIdExists (flavor_id : String)
  | flavorExists (name : String)
  | markerNotFound (marker : String)
  | extraSpecUpdateCreateFailed
deriving DecidableEq

/-! ### The pure list pipeline of `_flavor_get_all_db` -/

/-- `_sort_flavor_list(dictlist, key, sort_dir)`: Python
`sorted(dictlist, key=itemgetter(key), reverse=(not asc))` where
`asc = (sort_dir is "asc")`; CPython interns both literals, so the
identity test is equality with `"asc"`.  Python `sorted` is stable, and
with `reverse=True` it is the stable sort by the flipped comparison
(elements with equal keys keep their original order in both directions);
`List.insertionSort` realizes exactly that stable sort. -/
def sortFlavorList {K : Type} [LinearOrder K] (dictlist : List FlavorRow)
    (key : FlavorRow → K) (sort_dir : String) : List FlavorRow :=
  if sort_dir == "asc" then
    dictlist.insertionSort fun a b => key a ≤ key b
  else
    dictlist.insertionSort fun a b => key b ≤ key a

/-- `_flavor_list_by_marker(flavorlist, marker)`: with a marker, locate the
first index whose `flavorid` equals the marker and return everything
strictly after it; indexing `[0]` into an empty comprehension raises, which
the function turns into `MarkerNotFound`. -/
def flavorListByMarker (flavorlist : List FlavorRow) (marker : Option String) :
    Except FlavorErr (List FlavorRow) :=
  match marker with
  | none => .ok flavorlist
  | some m =>
    match flavorlist.findIdx? fun x => x.flavorid == m with
    | some i => .ok (flavorlist.drop (i + 1))
    | none => .error (.markerNotFound m)

/-- `_limit_flavor_list(flavorlist, limit)`: the Python slice
`flavorlist[:limit]`; `limit=None` keeps the whole list, an integer limit
keeps the first `limit` elements (so `limit=0` keeps none). -/
def limitFlavorList (flavorlist : List FlavorRow) (limit : Option Nat) :
    List FlavorRow :=
  match limit with
  | none => flavorlist
  | some n => flavorlist.take n

/-- `_flavor_union_list(flavor_list1, flavor_list2)`: the first list
followed by the second filtered to flavorids absent from the first. -/
def flavorUnionList (flavor_list1 flavor_list2 : List FlavorRow) :
    List FlavorRow :=
  let flavor_list1_ids := flavor_list1.map fun x => x.flavorid
  flavor_list1 ++ flavor_list2.filter fun x => !(flavor_list1_ids.contains x.flavorid)

/-- The merge tail of `_flavor_get_all_db`: given the primary-store query
result `api_flavors`, the legacy result `nova_flavors`, and whether the
marker row was found by the primary-store lookup (`marker_in_primary`,
the truthiness of `marker_row`), union the two lists, sort, slice by the
marker only when the marker was supplied but not found in the primary
store (`union_marker == 1`), and finally truncate to the limit. -/
def flavorGetAllMerge {K : Type} [LinearOrder K]
    (api_flavors nova_flavors : List FlavorRow) (key : FlavorRow → K)
    (sort_dir : String) (limit : Option Nat) (marker : Option String)
    (marker_in_primary : Bool) : Except FlavorErr (List FlavorRow) :=
  let union_marker := marker.isSome && !marker_in_primary
  let fl := sortFlavorList (flavorUnionList api_flavors nova_flavors) key sort_dir
  if union_marker then
    match flavorListByMarker fl marker with
    | .error e => .error e
    | .ok fl2 => .ok (limitFlavorList fl2 limit)
  else
    .ok (limitFlavorList fl limit)

/-! ### Primary-store queries -/

/-- Modelled from the spec: the `read_deleted` visibility modes of the
persistence layer `model_query`, which lives outside this module.  Mode
`no` hides soft-deleted rows and `only` shows only them; mode `yes`
applies no deleted filter at all — spec section 8 speaks of read_deleted
`yes` having to disambiguate *between* a live and a deleted row by the
(deleted-flag, id) ordering, and the repository test
`test_flavor_get_by_flavor_id_deleted_and_recreat` exercises exactly
that, so under `yes` both live and deleted rows are visible.  A `None`
argument falls back to the context default `no`. -/
def readDeletedKeep (read_deleted : String) (deleted : Nat) : Bool :=
  if read_deleted == "no" then deleted == 0
  else if read_deleted == "only" then decide (deleted ≠ 0)
  else true

/-- The `projects.any(project_id=...)` clause of `_flavor_get_query_db`:
the relationship join only sees non-deleted grant rows. -/
def projectsAny (grants : List ProjectRow) (fid : Nat)
    (project_id : Option String) : Bool :=
  grants.any fun p => p.flavor_id == fid && some p.project_id == project_id
    && p.deleted == 0

/-- `_flavor_get_query_db(context, session, read_deleted)`: all flavor rows
passing the read_deleted filter, restricted for non-admin callers to rows
that are public or granted to the caller project. -/
def flavorGetQueryDb (ctx : Ctx) (db : ApiDB) (read_deleted : Option String) :
    List FlavorRow :=
  (db.flavors.filter fun r =>
    readDeletedKeep (read_deleted.getD "no") r.deleted).filter fun r =>
      ctx.is_admin || r.is_public || projectsAny db.projects r.id ctx.project_id

/-- The `order_by(asc("deleted"), asc("id"))` ordering of
`_flavor_get_by_flavor_id_db`. -/
def deletedIdLe (a b : FlavorRow) : Prop :=
  a.deleted < b.deleted ∨ (a.deleted = b.deleted ∧ a.id ≤ b.id)

instance : DecidableRel deletedIdLe := fun a b => by
  unfold deletedIdLe; infer_instance

/-- `_flavor_get_by_flavor_id_db(context, flavor_id, read_deleted)`: first
visible row with the given business key under the (deleted, id) ordering,
else `FlavorNotFound`. -/
def flavorGetByFlavorIdDb (ctx : Ctx) (db : ApiDB) (flavor_id : String)
    (read_deleted : Option String) : Except FlavorErr FlavorRow :=
  match (((flavorGetQueryDb ctx db read_deleted).filter
      fun r => r.flavorid == flavor_id).insertionSort deletedIdLe).head? with
  | some r => .ok r
  | none => .error (.flavorNotFound flavor_id)

/-! ### `_flavor_create_db` -/

/-- The unique constraints of the `flavors` table,
`uniq_flavors0flavorid0deleted` and `uniq_flavors0name0deleted`: the
columns reported by a `DBDuplicateEntry` when inserting `values` would
collide with an existing row, `none` when the insert is clean. -/
def flavorsSaveColumns (db : ApiDB) (values : FlavorValues) :
    Option (List String) :=
  if db.flavors.any fun r => r.flavorid == values.flavorid
      && r.deleted == values.deleted then
    some ["flavorid", "deleted"]
  else if db.flavors.any fun r => r.name == values.name
      && r.deleted == values.deleted then
    some ["name", "deleted"]
  else none

/-- The `except db_exc.DBDuplicateEntry` handler of `_flavor_create_db`:
`FlavorIdExists` when `"flavorid"` is among the violated columns,
`FlavorExists` otherwise. -/
def dupEntryTranslate (columns : List String) (values : FlavorValues) :
    FlavorErr :=
  if columns.contains "flavorid" then .flavorIdExists values.flavorid
  else .flavorExists values.name

/-- The flavor row built by `_flavor_create_db` for `values`: a fresh
autoincrement id and the column values. -/
def newFlavorRow (db : ApiDB) (v : FlavorValues) : FlavorRow :=
  { id := db.next_flavor_id, name := v.name, memory_mb := v.memory_mb,
    vcpus := v.vcpus, root_gb := v.root_gb, ephemeral_gb := v.ephemeral_gb,
    flavorid := v.flavorid, swap := v.swap, vcpu_weight := v.vcpu_weight,
    disabled := v.disabled, is_public := v.is_public, deleted := v.deleted }

/-- `_flavor_create_db(context, values, projects)`: insert the flavor row
(translating a duplicate-entry error through `dupEntryTranslate`), then in
the same transaction insert one extra-spec row per `extra_specs` pair and
one access row per distinct project (`set(projects)` — Python set
iteration is abstracted as first-occurrence order, which no claim
observes). -/
def flavorCreateDb (db : ApiDB) (values : FlavorValues)
    (projects : List String) : Except FlavorErr (ApiDB × FlavorRow) :=
  match flavorsSaveColumns db values with
  | some cols => .error (dupEntryTranslate cols values)
  | none =>
    let row := newFlavorRow db values
    let specRows := values.extra_specs.enum.map fun iv =>
      { id := db.next_spec_id + iv.1, flavor_id := row.id, key := iv.2.1,
        value := iv.2.2, deleted := 0 : ExtraSpecRow }
    let projRows := projects.eraseDups.enum.map fun ip =>
      { id := db.next_project_id + ip.1, flavor_id := row.id,
        project_id := ip.2, deleted := 0 : ProjectRow }
    .ok ({ flavors := db.flavors ++ [row],
           extra_specs := db.extra_specs ++ specRows,
           projects := db.projects ++ projRows,
           next_flavor_id := db.next_flavor_id + 1,
           next_spec_id := db.next_spec_id + specRows.length,
           next_project_id := db.next_project_id + projRows.length }, row)

/-! ### `_flavor_destroy_db` and the legacy store -/

/-- The oslo row soft-delete: the row id is written into `deleted`. -/
def softDeleteFlavor (r : FlavorRow) : FlavorRow := { r with deleted := r.id }

/-- Modelled from the spec: the legacy-store `flavor_destroy(context,
name)` of the interface consumed by this module — same semantics as the
primary-store destroy of a row resolved by name: soft-delete the live
rows with the given name, `FlavorNotFoundByName` when there is none. -/
def legacyFlavorDestroy (ldb : LegacyDB) (name : String) :
    Except FlavorErr LegacyDB :=
  if ldb.flavors.any fun r => r.deleted == 0 && r.name == name then
    .ok { ldb with flavors := ldb.flavors.map fun r =>
            if r.deleted == 0 && r.name == name then softDeleteFlavor r else r }
  else .error (.flavorNotFoundByName name)

/-- `_flavor_destroy_db(context, name)`: find the live primary row by name
(plain `model_query`, no visibility clause); if none, delegate to the
legacy destroy and let its `FlavorNotFoundByName` propagate; otherwise
soft-delete the row, all its live extra-spec rows and all its live access
rows in the one transaction, then try the legacy destroy and swallow its
`FlavorNotFoundByName`. -/
def flavorDestroyDb (db : ApiDB) (ldb : LegacyDB) (name : String) :
    Except FlavorErr (ApiDB × LegacyDB) :=
  match db.flavors.find? fun r => r.deleted == 0 && r.name == name with
  | none =>
    match legacyFlavorDestroy ldb name with
    | .ok ldb2 => .ok (db, ldb2)
    | .error e => .error e
  | some ref =>
    let db2 : ApiDB :=
      { db with
        flavors := db.flavors.map fun r =>
          if r.id == ref.id then softDeleteFlavor r else r,
        extra_specs := db.extra_specs.map fun s =>
          if s.flavor_id == ref.id && s.deleted == 0 then
            { s with deleted := s.id } else s,
        projects := db.projects.map fun p =>
          if p.flavor_id == ref.id && p.deleted == 0 then
            { p with deleted := p.id } else p }
    match legacyFlavorDestroy ldb name with
    | .ok ldb2 => .ok (db2, ldb2)
    | .error _ => .ok (db2, ldb)

/-! ### `Flavor.get_by_flavor_id` read-through migration -/

/-- Modelled from the spec: the legacy-store `flavor_get_by_flavor_id` of
the consumed interface — same lookup semantics as the primary-store
equivalent `_flavor_get_by_flavor_id_db`, against the legacy state. -/
def legacyFlavorGetByFlavorId (ldb : LegacyDB) (flavor_id : String)
    (read_deleted : Option String) : Except FlavorErr FlavorRow :=
  match (((ldb.flavors.filter fun r =>
      readDeletedKeep (read_deleted.getD "no") r.deleted).filter
        fun r => r.flavorid == flavor_id).insertionSort deletedIdLe).head? with
  | some r => .ok r
  | none => .error (.flavorNotFound flavor_id)

/-- Modelled from the spec: the legacy-store
`flavor_access_get_by_flavor_id` of the consumed interface — the access
grants of the legacy flavor with the given business key; a grant row is
represented by its `project_id`. -/
def legacyAccessGetByFlavorId (ldb : LegacyDB) (flavor_id : String) :
    List String :=
  match ldb.flavors.find? fun r => r.deleted == 0 && r.flavorid == flavor_id with
  | none => []
  | some row =>
    (ldb.projects.filter fun p => p.flavor_id == row.id && p.deleted == 0).map
      fun p => p.project_id

/-- The values dict of a legacy row as seen by `_migrate_flavor_to_api`
after `del tvalues["id"]`: every column value of the row, its non-deleted
extra specs, and no internal id. -/
def legacyRowValues (ldb : LegacyDB) (r : FlavorRow) : FlavorValues :=
  { name := r.name, memory_mb := r.memory_mb, vcpus := r.vcpus,
    root_gb := r.root_gb, ephemeral_gb := r.ephemeral_gb,
    flavorid := r.flavorid, swap := r.swap, vcpu_weight := r.vcpu_weight,
    disabled := r.disabled, is_public := r.is_public,
    extra_specs := (ldb.extra_specs.filter fun s =>
      s.flavor_id == r.id && s.deleted == 0).map fun s => (s.key, s.value),
    deleted := r.deleted }

/-- `_migrate_flavor_to_api(context, values, flavor_id)`: create in the
primary store a copy of the legacy values without the internal id,
together with the legacy access grants of the business key. -/
def migrateFlavorToApi (db : ApiDB) (ldb : LegacyDB) (values : FlavorValues)
    (flavor_id : String) : Except FlavorErr ApiDB :=
  match flavorCreateDb db values (legacyAccessGetByFlavorId ldb flavor_id) with
  | .ok dbrow => .ok dbrow.1
  | .error e => .error e

/-- `Flavor.get_by_flavor_id(context, flavor_id, read_deleted)`: try the
primary store; only on its `FlavorNotFound` read the legacy store and, as
a side effect, migrate the record into the primary store; the returned
object is built from whichever row was read.  The result pairs that row
with the primary store after the call. -/
def flavorObjGetByFlavorId (ctx : Ctx) (db : ApiDB) (ldb : LegacyDB)
    (flavor_id : String) (read_deleted : Option String) :
    Except FlavorErr (FlavorRow × ApiDB) :=
  match flavorGetByFlavorIdDb ctx db flavor_id read_deleted with
  | .ok r => .ok (r, db)
  | .error (.flavorNotFound _) =>
    match legacyFlavorGetByFlavorId ldb flavor_id read_deleted with
    | .ok lrow =>
      match migrateFlavorToApi db ldb (legacyRowValues ldb lrow) flavor_id with
      | .ok db2 => .ok (lrow, db2)
      | .error e => .error e
    | .error e => .error e
  | .error e => .error e

/-! ### `_flavor_extra_specs_update_or_create_db` -/

/-- The observable outcome of one iteration body of the upsert loop: the
body resolves the business key (`_flavor_get_id_from_flavor_db`, whose
`FlavorNotFound` is not caught) and runs the update-or-insert transaction,
whose only caught failure is a `DBDuplicateEntry` from a raced insert. -/
inductive AttemptOutcome where
  | ok
  | dup
  | notFound
deriving DecidableEq

/-- The `for attempt in range(max_retries)` loop of
`_flavor_extra_specs_update_or_create_db`, from iteration `i` on, with
`fuel` the remaining iterations (`max_retries - i`): a clean body returns
the specs (`true`); a duplicate entry re-runs the body unless this was
the last attempt (`attempt == max_retries - 1`), which raises
`FlavorExtraSpecUpdateCreateFailed`; an unresolvable key raises
`FlavorNotFound` at once.  Falling off the loop returns `None` (`false`).
The returned number counts the attempts executed. -/
def upsertLoop (flavor_id : String) (attempt : Nat → AttemptOutcome)
    (max_retries : Nat) : Nat → Nat → Except FlavorErr Bool × Nat
  | 0, i => (.ok false, i)
  | fuel + 1, i =>
    match attempt i with
    | .ok => (.ok true, i + 1)
    | .notFound => (.error (.flavorNotFound flavor_id), i + 1)
    | .dup =>
      if i == max_retries - 1 then (.error .extraSpecUpdateCreateFailed, i + 1)
      else upsertLoop flavor_id attempt max_retries fuel (i + 1)

/-- `_flavor_extra_specs_update_or_create_db(context, flavor_id, specs,
max_retries)`, with the iteration body abstracted into the per-attempt
outcome oracle. -/
def extraSpecsUpdateOrCreateDb (flavor_id : String)
    (attempt : Nat → AttemptOutcome) (max_retries : Nat) :
    Except FlavorErr Bool × Nat :=
  upsertLoop flavor_id attempt max_retries max_retries 0

/-! ### Sample data for the concrete witnesses -/

/-- A sample flavor row builder for witnesses. -/
def mkRow (i : Nat) (n fid : String) (mem : Nat) : FlavorRow :=
  { id := i, name := n, memory_mb := mem, vcpus := 1, root_gb := 10,
    ephemeral_gb := 10, flavorid := fid, swap := 0, vcpu_weight := none,
    disabled := false, is_public := true, deleted := 0 }

/-! ### Stability of the embedded sort -/

/-- A stable sort leaves the relative order of elements selected by a
predicate untouched whenever the sorting relation holds between any two
selected elements: filtering the sorted list returns the filtered input. -/
theorem filter_insertionSort_eq {α : Type} (r : α → α → Prop) [DecidableRel r]
    (p : α → Bool) (hp : ∀ a b, p a = true → p b = true → r a b)
    (l : List α) : (l.insertionSort r).filter p = l.filter p := by
  have hpair : (l.filter p).Pairwise r := by
    refine List.pairwise_of_forall_mem_list ?_
    intro a ha b hb
    exact hp a b (List.of_mem_filter ha) (List.of_mem_filter hb)
  have hsub : l.filter p <+ l.insertionSort r :=
    List.sublist_insertionSort hpair (List.filter_sublist l)
  have hsub2 : l.filter p <+ (l.insertionSort r).filter p := by
    have h2 := hsub.filter p
    simpa using h2
  have hlen : ((l.insertionSort r).filter p).length = (l.filter p).length :=
    ((List.perm_insertionSort r l).filter p).length_eq
  exact (hsub2.eq_of_length hlen.symm).symm

/-! ### Claim C1 -/

/-- Claim C1: the merged list is the primary list followed by exactly the
legacy records whose flavorid does not occur among the primary flavorids,
each sub-list in its original order; and a business key present in both
stores is represented only by its primary-store records. -/
theorem flavor_union_by_business_key (P L : List FlavorRow) :
    flavorUnionList P L
      = P ++ L.filter (fun x => decide (x.flavorid ∉ P.map FlavorRow.flavorid))
    ∧ ∀ f ∈ P.map FlavorRow.flavorid,
        (flavorUnionList P L).filter (fun x => x.flavorid == f)
          = P.filter (fun x => x.flavorid == f) := by
  have hq : ∀ x : FlavorRow,
      (!((P.map fun y => y.flavorid).contains x.flavorid))
        = decide (x.flavorid ∉ P.map FlavorRow.flavorid) := by
    intro x
    simp only [List.contains, List.elem_eq_mem, decide_not]
  constructor
  · unfold flavorUnionList
    simp only [hq]
  · intro f hf
    unfold flavorUnionList
    rw [List.filter_append]
    have hnil : (L.filter fun x =>
        !((P.map fun y => y.flavorid).contains x.flavorid)).filter
          (fun x => x.flavorid == f) = [] := by
      rw [List.filter_filter]
      rw [List.filter_eq_nil_iff]
      intro a _ hcon
      simp only [Bool.and_eq_true] at hcon
      obtain ⟨h1, h2⟩ := hcon
      have h1f : a.flavorid = f := by simpa using h1
      have h2m : a.flavorid ∉ P.map fun y => y.flavorid := by
        simpa [List.contains, List.elem_eq_mem] using h2
      exact h2m (h1f ▸ hf)
    rw [hnil, List.append_nil]

/-- Witness for C1 at concrete lists: the key "f1" occurs in both stores
and the merged list keeps only the primary record for it. -/
theorem flavor_union_by_business_key_witness :
    (flavorUnionList [mkRow 1 "a1" "f1" 100] [mkRow 7 "a1" "f1" 999, mkRow 8 "a2" "f2" 200]).filter
        (fun x => x.flavorid == "f1")
      = [mkRow 1 "a1" "f1" 100].filter (fun x => x.flavorid == "f1") :=
  (flavor_union_by_business_key [mkRow 1 "a1" "f1" 100]
    [mkRow 7 "a1" "f1" 999, mkRow 8 "a2" "f2" 200]).2 "f1" (by decide)

/-! ### Claim C3 -/

/-- Counterexample for C3: with `limit = 0` the final truncation is not a
no-op — the whole merged list is dropped, not returned unchanged. -/
theorem limit_zero_not_noop_counterexample :
    limitFlavorList [mkRow 1 "a1" "f1" 100] (some 0)
      ≠ [mkRow 1 "a1" "f1" 100] := by decide

/-- Claim C3 as amended: the final result of list_all is the merged list
truncated to its first `limit` entries; the truncation is a no-op exactly
when `limit` is `None`, and for `limit = 0` the result is empty. -/
theorem list_all_limit_truncates {K : Type} [LinearOrder K]
    (P L : List FlavorRow) (key : FlavorRow → K) (sort_dir : String)
    (limit : Option Nat) (marker : Option String) (mip : Bool) :
    flavorGetAllMerge P L key sort_dir limit marker mip
      = (flavorGetAllMerge P L key sort_dir none marker mip).map
          (fun fl => limitFlavorList fl limit)
    ∧ (∀ fl : List FlavorRow, limitFlavorList fl none = fl)
    ∧ (∀ (fl : List FlavorRow) (n : Nat),
        limitFlavorList fl (some n) = fl.take n)
    ∧ (∀ fl : List FlavorRow, limitFlavorList fl (some 0) = []) := by
  refine ⟨?_, fun fl => rfl, fun fl n => rfl, fun fl => by simp [limitFlavorList]⟩
  unfold flavorGetAllMerge
  by_cases hm : (marker.isSome && !mip) = true
  · simp only [hm, if_true]
    cases flavorListByMarker
        (sortFlavorList (flavorUnionList P L) key sort_dir) marker with
    | error e => rfl
    | ok fl2 => rfl
  · simp only [hm, if_false, Bool.false_eq_true]
    rfl

/-! ### Claim C4 -/

/-- Claim C4: list_all sorts the merged list by the value at the sort key,
ascending for sort_dir "asc" and descending for "desc", as a stable
permutation: records with equal key values keep their prior order. -/
theorem list_all_sorts_stably {K : Type} [LinearOrder K]
    (l : List FlavorRow) (key : FlavorRow → K) :
    ((sortFlavorList l key "asc").Pairwise (fun a b => key a ≤ key b)
      ∧ sortFlavorList l key "asc" ~ l
      ∧ ∀ v : K, (sortFlavorList l key "asc").filter (fun x => decide (key x = v))
          = l.filter (fun x => decide (key x = v)))
    ∧ ((sortFlavorList l key "desc").Pairwise (fun a b => key b ≤ key a)
      ∧ sortFlavorList l key "desc" ~ l
      ∧ ∀ v : K, (sortFlavorList l key "desc").filter (fun x => decide (key x = v))
          = l.filter (fun x => decide (key x = v))) := by
  have hasc : sortFlavorList l key "asc"
      = l.insertionSort (fun a b => key a ≤ key b) := by
    unfold sortFlavorList
    rw [if_pos (show (("asc" : String) == "asc") = true by decide)]
  have hdesc : sortFlavorList l key "desc"
      = l.insertionSort (fun a b => key b ≤ key a) := by
    unfold sortFlavorList
    rw [if_neg (show ¬(("desc" : String) == "asc") = true by decide)]
  constructor
  · refine ⟨?_, ?_, ?_⟩
    · rw [hasc]
      haveI ht : IsTotal FlavorRow (fun a b => key a ≤ key b) :=
        ⟨fun a b => le_total (key a) (key b)⟩
      haveI htr : IsTrans FlavorRow (fun a b => key a ≤ key b) :=
        ⟨fun _ _ _ h1 h2 => le_trans h1 h2⟩
      exact List.sorted_insertionSort _ l
    · rw [hasc]; exact List.perm_insertionSort _ l
    · intro v
      rw [hasc]
      exact filter_insertionSort_eq _ _
        (fun a b ha hb => by
          have ha2 : key a = v := by simpa using ha
          have hb2 : key b = v := by simpa using hb
          simp [ha2, hb2]) l
  · refine ⟨?_, ?_, ?_⟩
    · rw [hdesc]
      haveI ht : IsTotal FlavorRow (fun a b => key b ≤ key a) :=
        ⟨fun a b => le_total (key b) (key a)⟩
      haveI htr : IsTrans FlavorRow (fun a b => key b ≤ key a) :=
        ⟨fun _ _ _ h1 h2 => le_trans h2 h1⟩
      exact List.sorted_insertionSort _ l
    · rw [hdesc]; exact List.perm_insertionSort _ l
    · intro v
      rw [hdesc]
      exact filter_insertionSort_eq _ _
        (fun a b ha hb => by
          have ha2 : key a = v := by simpa using ha
          have hb2 : key b = v := by simpa using hb
          simp [ha2, hb2]) l

/-! ### Claim C10 -/

/-- Claim C10: every sort_dir other than exactly "asc" — "desc" as well
as any misspelled value — produces the descending stable sort (the same
list the value "desc" produces), so ascending order arises only from the
exact string "asc". -/
theorem sort_dir_other_than_asc_descends {K : Type} [LinearOrder K]
    (l : List FlavorRow) (key : FlavorRow → K) (sort_dir : String)
    (h : sort_dir ≠ "asc") :
    sortFlavorList l key sort_dir = sortFlavorList l key "desc"
    ∧ (sortFlavorList l key sort_dir).Pairwise (fun a b => key b ≤ key a)
    ∧ sortFlavorList l key sort_dir ~ l := by
  have hne : ¬((sort_dir == "asc") = true) := by
    simpa using h
  have heq : sortFlavorList l key sort_dir
      = l.insertionSort (fun a b => key b ≤ key a) := by
    unfold sortFlavorList
    rw [if_neg hne]
  have hdesc : sortFlavorList l key "desc"
      = l.insertionSort (fun a b => key b ≤ key a) := by
    unfold sortFlavorList
    rw [if_neg (show ¬(("desc" : String) == "asc") = true by decide)]
  refine ⟨heq.trans hdesc.symm, ?_, ?_⟩
  · rw [heq]
    haveI ht : IsTotal FlavorRow (fun a b => key b ≤ key a) :=
      ⟨fun a b => le_total (key b) (key a)⟩
    haveI htr : IsTrans FlavorRow (fun a b => key b ≤ key a) :=
      ⟨fun _ _ _ h1 h2 => le_trans h2 h1⟩
    exact List.sorted_insertionSort _ l
  · rw [heq]; exact List.perm_insertionSort _ l

/-- Witness for C10 at a concrete misspelled sort_dir. -/
theorem sort_dir_other_than_asc_descends_witness :
    sortFlavorList [mkRow 1 "a1" "f1" 100, mkRow 2 "a2" "f2" 200]
        FlavorRow.memory_mb "ascending"
      = sortFlavorList [mkRow 1 "a1" "f1" 100, mkRow 2 "a2" "f2" 200]
        FlavorRow.memory_mb "desc" :=
  (sort_dir_other_than_asc_descends [mkRow 1 "a1" "f1" 100, mkRow 2 "a2" "f2" 200]
    FlavorRow.memory_mb "ascending" (by decide)).1

/-! ### Claim C2 -/

/-- When the marker was supplied but not found in the primary store,
`_flavor_get_all_db` (without a limit) is exactly the marker slicing of
the merged sorted list. -/
theorem flavorGetAllMerge_marker_eq {K : Type} [LinearOrder K]
    (P L : List FlavorRow) (key : FlavorRow → K) (sort_dir : String)
    (m : String) :
    flavorGetAllMerge P L key sort_dir none (some m) false
      = match (sortFlavorList (flavorUnionList P L) key sort_dir).findIdx?
          (fun x => x.flavorid == m) with
        | some i => .ok ((sortFlavorList (flavorUnionList P L) key
            sort_dir).drop (i + 1))
        | none => .error (.markerNotFound m) := by
  unfold flavorGetAllMerge flavorListByMarker
  simp only [Option.isSome_some, Bool.not_false, Bool.and_true, if_true]
  cases hfind : (sortFlavorList (flavorUnionList P L) key sort_dir).findIdx?
      (fun x => x.flavorid == m) with
  | some i => rfl
  | none => rfl

/-- The sorted merged list is a permutation of the union. -/
theorem sortFlavorList_perm {K : Type} [LinearOrder K]
    (l : List FlavorRow) (key : FlavorRow → K) (sort_dir : String) :
    List.Perm (sortFlavorList l key sort_dir) l := by
  unfold sortFlavorList
  by_cases h : (sort_dir == "asc") = true
  · rw [if_pos h]; exact List.perm_insertionSort _ _
  · rw [if_neg h]; exact List.perm_insertionSort _ _

/-- Claim C2: with a marker that was not found as a visible row in the
primary store, the result of list_all is exactly the elements of the
merged, sorted list strictly after the first element whose flavorid
equals the marker; the call fails with MarkerNotFound exactly when the
flavorid occurs in neither store. -/
theorem list_all_marker_not_in_primary {K : Type} [LinearOrder K]
    (P L : List FlavorRow) (key : FlavorRow → K) (sort_dir : String)
    (m : String) (hP : m ∉ P.map FlavorRow.flavorid) :
    (∀ i, (sortFlavorList (flavorUnionList P L) key sort_dir).findIdx?
        (fun x => x.flavorid == m) = some i →
      flavorGetAllMerge P L key sort_dir none (some m) false
        = .ok ((sortFlavorList (flavorUnionList P L) key sort_dir).drop (i + 1)))
    ∧ (flavorGetAllMerge P L key sort_dir none (some m) false
        = .error (.markerNotFound m)
      ↔ m ∉ P.map FlavorRow.flavorid ∧ m ∉ L.map FlavorRow.flavorid) := by
  have hperm := sortFlavorList_perm (flavorUnionList P L) key sort_dir
  have hnone : ((sortFlavorList (flavorUnionList P L) key sort_dir).findIdx?
      (fun x => x.flavorid == m) = none)
      ↔ (m ∉ P.map FlavorRow.flavorid ∧ m ∉ L.map FlavorRow.flavorid) := by
    rw [List.findIdx?_eq_none_iff]
    constructor
    · intro hall
      refine ⟨hP, ?_⟩
      intro hm
      obtain ⟨x, hxL, hxm⟩ := List.mem_map.mp hm
      have hxu : x ∈ flavorUnionList P L := by
        unfold flavorUnionList
        refine List.mem_append_right _ ?_
        refine List.mem_filter.mpr ⟨hxL, ?_⟩
        simp only [List.contains, List.elem_eq_mem, hxm, Bool.not_eq_eq_eq_not,
          Bool.not_true, decide_eq_false_iff_not]
        exact hP
      have hxS := hperm.mem_iff.mpr hxu
      have := hall x hxS
      simp [hxm] at this
    · rintro ⟨h1, h2⟩ x hx
      have hxu : x ∈ flavorUnionList P L := hperm.mem_iff.mp hx
      unfold flavorUnionList at hxu
      simp only [beq_eq_false_iff_ne, ne_eq]
      intro heq
      rcases List.mem_append.mp hxu with hxP | hxF
      · exact h1 (List.mem_map.mpr ⟨x, hxP, heq⟩)
      · exact h2 (List.mem_map.mpr ⟨x, List.mem_of_mem_filter hxF, heq⟩)
  constructor
  · intro i hi
    rw [flavorGetAllMerge_marker_eq, hi]
  · rw [flavorGetAllMerge_marker_eq]
    cases hfind : (sortFlavorList (flavorUnionList P L) key sort_dir).findIdx?
        (fun x => x.flavorid == m) with
    | some i =>
      simp only [hfind]
      constructor
      · intro hcon; cases hcon
      · intro hboth
        have := hnone.mpr hboth
        rw [hfind] at this
        cases this
    | none =>
      simp only [hfind]
      constructor
      · intro _; exact hnone.mp hfind
      · intro _; trivial

/-- Witness for C2: the marker "f1" lives only in the legacy store; the
merged sorted list is sliced strictly after it. -/
theorem list_all_marker_not_in_primary_witness :
    flavorGetAllMerge [] [mkRow 1 "a1" "f1" 100, mkRow 2 "a2" "f2" 200]
        FlavorRow.memory_mb "asc" none (some "f1") false
      = .ok ((sortFlavorList
          (flavorUnionList [] [mkRow 1 "a1" "f1" 100, mkRow 2 "a2" "f2" 200])
          FlavorRow.memory_mb "asc").drop (0 + 1)) :=
  (list_all_marker_not_in_primary []
    [mkRow 1 "a1" "f1" 100, mkRow 2 "a2" "f2" 200]
    FlavorRow.memory_mb "asc" "f1" (by decide)).1 0 (by decide)

/-! ### Claim C6 -/

/-- Counterexample for C6: with `max_retries = 0` the loop body never
runs — the call returns `None` after zero attempts instead of failing
with the retry-exhaustion error. -/
theorem extra_spec_retry_zero_counterexample :
    extraSpecsUpdateOrCreateDb "1" (fun _ => AttemptOutcome.dup) 0
      = (.ok false, 0) := rfl

/-- All-duplicates runs of the upsert loop exhaust the remaining fuel and
end in the retry-exhaustion error after attempt `max_retries - 1`. -/
theorem upsertLoop_all_dup (flavor_id : String)
    (attempt : Nat → AttemptOutcome) (max_retries : Nat) :
    ∀ fuel i, fuel + i = max_retries → 0 < fuel →
      (∀ j, j < max_retries → attempt j = .dup) →
      upsertLoop flavor_id attempt max_retries fuel i
        = (.error .extraSpecUpdateCreateFailed, max_retries) := by
  intro fuel
  induction fuel with
  | zero => intro i _ h0 _; omega
  | succ n ih =>
    intro i hsum _ hdup
    have hi : i < max_retries := by omega
    have hai := hdup i hi
    unfold upsertLoop
    rw [hai]
    by_cases hlast : i = max_retries - 1
    · have : (i == max_retries - 1) = true := by simpa using hlast
      rw [if_pos this]
      have : i + 1 = max_retries := by omega
      rw [this]
    · have hne : ¬((i == max_retries - 1) = true) := by simpa using hlast
      rw [if_neg hne]
      have hn : 0 < n := by omega
      exact ih (i + 1) (by omega) hn hdup

/-- Claim C6 as amended: for `max_retries ≥ 1`, if every attempt raises a
duplicate-entry error the upsert fails with
`FlavorExtraSpecUpdateCreateFailed` after exactly `max_retries` attempts,
and an unresolvable business key fails with `FlavorNotFound` on the first
attempt; for `max_retries = 0` the loop body never runs and the call
returns `None` without failing. -/
theorem extra_spec_retry_exhaustion (flavor_id : String)
    (attempt : Nat → AttemptOutcome) (max_retries : Nat)
    (hpos : 0 < max_retries) :
    ((∀ j, j < max_retries → attempt j = .dup) →
      extraSpecsUpdateOrCreateDb flavor_id attempt max_retries
        = (.error .extraSpecUpdateCreateFailed, max_retries))
    ∧ (attempt 0 = .notFound →
      extraSpecsUpdateOrCreateDb flavor_id attempt max_retries
        = (.error (.flavorNotFound flavor_id), 1)) := by
  constructor
  · intro hdup
    exact upsertLoop_all_dup flavor_id attempt max_retries max_retries 0
      (by omega) hpos hdup
  · intro hnf
    unfold extraSpecsUpdateOrCreateDb
    cases max_retries with
    | zero => omega
    | succ n =>
      unfold upsertLoop
      rw [hnf]

/-- Witness for C6: five attempts, each raising a duplicate entry,
exhaust the budget of 5 — the shape of the repository retry test. -/
theorem extra_spec_retry_exhaustion_witness :
    extraSpecsUpdateOrCreateDb "1" (fun _ => AttemptOutcome.dup) 5
      = (.error .extraSpecUpdateCreateFailed, 5) :=
  (extra_spec_retry_exhaustion "1" (fun _ => AttemptOutcome.dup) 5
    (by decide)).1 (fun _ _ => rfl)

/-! ### Claim C9 -/

/-- The base flavor values of the repository test fixtures. -/
def vBase : FlavorValues :=
  { name := "fake_name", memory_mb := 512, vcpus := 1, root_gb := 10,
    ephemeral_gb := 10, flavorid := "fake_flavor", swap := 0,
    vcpu_weight := some 1, disabled := false, is_public := true }

/-- Claim C9: an insert-time duplicate-key error is translated to
FlavorIdExists exactly when the violated columns include flavorid, and to
FlavorExists otherwise; a create whose business key collides with an
existing row of equal deleted-marker fails with FlavorIdExists, a create
whose name collides (business key fresh) fails with FlavorExists — in
particular the second of two creates with equal flavorid, or with equal
name, fails with the corresponding error. -/
theorem create_duplicate_key_errors (db db2 : ApiDB) (r1 : FlavorRow)
    (v1 : FlavorValues) (pr1 : List String)
    (hcreate : flavorCreateDb db v1 pr1 = .ok (db2, r1)) :
    (∀ (cols : List String) (v : FlavorValues),
        (dupEntryTranslate cols v = .flavorIdExists v.flavorid
          ↔ "flavorid" ∈ cols)
        ∧ ("flavorid" ∉ cols →
            dupEntryTranslate cols v = .flavorExists v.name))
    ∧ (∀ (dbx : ApiDB) (v : FlavorValues) (pr : List String),
        (∃ r ∈ dbx.flavors, r.flavorid = v.flavorid ∧ r.deleted = v.deleted) →
        flavorCreateDb dbx v pr = .error (.flavorIdExists v.flavorid))
    ∧ (∀ (dbx : ApiDB) (v : FlavorValues) (pr : List String),
        (¬ ∃ r ∈ dbx.flavors, r.flavorid = v.flavorid ∧ r.deleted = v.deleted) →
        (∃ r ∈ dbx.flavors, r.name = v.name ∧ r.deleted = v.deleted) →
        flavorCreateDb dbx v pr = .error (.flavorExists v.name))
    ∧ (∀ (v2 : FlavorValues) (pr2 : List String),
        v2.flavorid = v1.flavorid → v2.deleted = v1.deleted →
        flavorCreateDb db2 v2 pr2 = .error (.flavorIdExists v2.flavorid))
    ∧ (∀ (v2 : FlavorValues) (pr2 : List String),
        v2.name = v1.name → v2.deleted = v1.deleted →
        (¬ ∃ r ∈ db2.flavors, r.flavorid = v2.flavorid ∧ r.deleted = v2.deleted) →
        flavorCreateDb db2 v2 pr2 = .error (.flavorExists v2.name)) := by
  have htrans : ∀ (cols : List String) (v : FlavorValues),
      (dupEntryTranslate cols v = .flavorIdExists v.flavorid
        ↔ "flavorid" ∈ cols)
      ∧ ("flavorid" ∉ cols →
          dupEntryTranslate cols v = .flavorExists v.name) := by
    intro cols v
    unfold dupEntryTranslate
    by_cases h : "flavorid" ∈ cols
    · have hc : (cols.contains "flavorid") = true := by
        simpa [List.contains, List.elem_eq_mem] using h
      rw [if_pos hc]
      exact ⟨⟨fun _ => h, fun _ => rfl⟩, fun hn => absurd h hn⟩
    · have hc : ¬((cols.contains "flavorid") = true) := by
        simpa [List.contains, List.elem_eq_mem] using h
      rw [if_neg hc]
      refine ⟨⟨fun he => ?_, fun hm => absurd hm h⟩, fun _ => rfl⟩
      cases he
  have hgen1 : ∀ (dbx : ApiDB) (v : FlavorValues) (pr : List String),
      (∃ r ∈ dbx.flavors, r.flavorid = v.flavorid ∧ r.deleted = v.deleted) →
      flavorCreateDb dbx v pr = .error (.flavorIdExists v.flavorid) := by
    rintro dbx v pr ⟨r, hr, h1, h2⟩
    have hany : (dbx.flavors.any fun r =>
        r.flavorid == v.flavorid && r.deleted == v.deleted) = true :=
      List.any_eq_true.mpr ⟨r, hr, by simp [h1, h2]⟩
    unfold flavorCreateDb flavorsSaveColumns
    rw [if_pos hany]
    rfl
  have hgen2 : ∀ (dbx : ApiDB) (v : FlavorValues) (pr : List String),
      (¬ ∃ r ∈ dbx.flavors, r.flavorid = v.flavorid ∧ r.deleted = v.deleted) →
      (∃ r ∈ dbx.flavors, r.name = v.name ∧ r.deleted = v.deleted) →
      flavorCreateDb dbx v pr = .error (.flavorExists v.name) := by
    rintro dbx v pr hno ⟨r, hr, h1, h2⟩
    have hany1 : ¬((dbx.flavors.any fun r =>
        r.flavorid == v.flavorid && r.deleted == v.deleted) = true) := by
      intro hx
      obtain ⟨x, hxm, hxp⟩ := List.any_eq_true.mp hx
      simp only [Bool.and_eq_true, beq_iff_eq] at hxp
      exact hno ⟨x, hxm, hxp.1, hxp.2⟩
    have hany2 : (dbx.flavors.any fun r =>
        r.name == v.name && r.deleted == v.deleted) = true :=
      List.any_eq_true.mpr ⟨r, hr, by simp [h1, h2]⟩
    unfold flavorCreateDb flavorsSaveColumns
    rw [if_neg hany1, if_pos hany2]
    rfl
  have hdb2 : db2.flavors = db.flavors ++ [newFlavorRow db v1] := by
    unfold flavorCreateDb at hcreate
    cases hs : flavorsSaveColumns db v1 with
    | some cols =>
      rw [hs] at hcreate
      cases hcreate
    | none =>
      rw [hs] at hcreate
      simp only [Except.ok.injEq, Prod.mk.injEq] at hcreate
      obtain ⟨hdbeq, _⟩ := hcreate
      rw [← hdbeq]
  refine ⟨htrans, hgen1, hgen2, ?_, ?_⟩
  · intro v2 pr2 hfid hdel
    refine hgen1 db2 v2 pr2 ⟨newFlavorRow db v1, ?_, ?_, ?_⟩
    · rw [hdb2]
      exact List.mem_append_right _ (List.mem_singleton.mpr rfl)
    · rw [hfid]; rfl
    · rw [hdel]; rfl
  · intro v2 pr2 hname hdel hno
    refine hgen2 db2 v2 pr2 hno ⟨newFlavorRow db v1, ?_, ?_, ?_⟩
    · rw [hdb2]
      exact List.mem_append_right _ (List.mem_singleton.mpr rfl)
    · rw [hname]; rfl
    · rw [hdel]; rfl

/-- Witness for C9: the second create with the same business key (fresh
name) fails with FlavorIdExists, the duplicate-flavorid test shape. -/
theorem create_duplicate_key_errors_witness :
    flavorCreateDb { flavors := [newFlavorRow {} vBase], next_flavor_id := 2 }
        { vBase with name := "some_random_name" } []
      = .error (.flavorIdExists "fake_flavor") :=
  (create_duplicate_key_errors {}
      { flavors := [newFlavorRow {} vBase], next_flavor_id := 2 }
      (newFlavorRow {} vBase) vBase [] rfl).2.2.2.1
    { vBase with name := "some_random_name" } [] rfl rfl

/-! ### Claim C8 -/

/-- Claim C8: destroy soft-deletes the live primary row with the given
name and, in the same transition, soft-deletes all of its live extra-spec
and access-grant rows; the follow-up legacy destroy is best-effort (its
not-found is swallowed when the primary row existed, its success is
taken); and destroy fails with NotFoundByName exactly when no live row
with that name exists in either store. -/
theorem destroy_cascade_and_not_found (db : ApiDB) (ldb : LegacyDB)
    (name : String) :
    (flavorDestroyDb db ldb name = .error (.flavorNotFoundByName name)
      ↔ (∀ r ∈ db.flavors, r.deleted = 0 → r.name ≠ name)
        ∧ (∀ r ∈ ldb.flavors, r.deleted = 0 → r.name ≠ name))
    ∧ (∀ ref, db.flavors.find? (fun r => r.deleted == 0 && r.name == name)
          = some ref →
        ∃ db2 ldb2, flavorDestroyDb db ldb name = .ok (db2, ldb2)
          ∧ db2.flavors = db.flavors.map
              (fun r => if r.id = ref.id then softDeleteFlavor r else r)
          ∧ db2.extra_specs = db.extra_specs.map
              (fun s => if s.flavor_id = ref.id ∧ s.deleted = 0 then
                { s with deleted := s.id } else s)
          ∧ db2.projects = db.projects.map
              (fun p => if p.flavor_id = ref.id ∧ p.deleted = 0 then
                { p with deleted := p.id } else p)
          ∧ (∀ ldb2x, legacyFlavorDestroy ldb name = .ok ldb2x → ldb2 = ldb2x)
          ∧ (∀ e, legacyFlavorDestroy ldb name = .error e → ldb2 = ldb)) := by
  have hmapf : ∀ (l : List FlavorRow) (ref : FlavorRow),
      l.map (fun r => if r.id == ref.id then softDeleteFlavor r else r)
        = l.map (fun r => if r.id = ref.id then softDeleteFlavor r else r) := by
    intro l ref
    refine List.map_congr_left ?_
    intro r _
    by_cases h : r.id = ref.id
    · rw [if_pos (by simpa using h), if_pos h]
    · rw [if_neg (by simpa using h), if_neg h]
  have hmaps : ∀ (l : List ExtraSpecRow) (ref : FlavorRow),
      l.map (fun s => if s.flavor_id == ref.id && s.deleted == 0 then
          { s with deleted := s.id } else s)
        = l.map (fun s => if s.flavor_id = ref.id ∧ s.deleted = 0 then
          { s with deleted := s.id } else s) := by
    intro l ref
    refine List.map_congr_left ?_
    intro s _
    by_cases h : s.flavor_id = ref.id ∧ s.deleted = 0
    · rw [if_pos (by simp [h.1, h.2]), if_pos h]
    · rw [if_neg (by simpa [Bool.and_eq_true] using h), if_neg h]
  have hmapp : ∀ (l : List ProjectRow) (ref : FlavorRow),
      l.map (fun p => if p.flavor_id == ref.id && p.deleted == 0 then
          { p with deleted := p.id } else p)
        = l.map (fun p => if p.flavor_id = ref.id ∧ p.deleted = 0 then
          { p with deleted := p.id } else p) := by
    intro l ref
    refine List.map_congr_left ?_
    intro p _
    by_cases h : p.flavor_id = ref.id ∧ p.deleted = 0
    · rw [if_pos (by simp [h.1, h.2]), if_pos h]
    · rw [if_neg (by simpa [Bool.and_eq_true] using h), if_neg h]
  constructor
  · unfold flavorDestroyDb
    cases hfind : db.flavors.find? (fun r => r.deleted == 0 && r.name == name) with
    | some ref =>
      have hrefp := List.find?_some hfind
      have hrefm := List.mem_of_find?_eq_some hfind
      simp only [Bool.and_eq_true, beq_iff_eq] at hrefp
      constructor
      · intro hcon
        cases hleg : legacyFlavorDestroy ldb name with
        | ok l2 => rw [hleg] at hcon; cases hcon
        | error e => rw [hleg] at hcon; cases hcon
      · rintro ⟨h1, _⟩
        exact absurd hrefp.2 (h1 ref hrefm hrefp.1)
    | none =>
      unfold legacyFlavorDestroy
      by_cases hany : (ldb.flavors.any fun r => r.deleted == 0 && r.name == name) = true
      · rw [if_pos hany]
        constructor
        · intro hcon; cases hcon
        · rintro ⟨_, h2⟩
          obtain ⟨x, hxm, hxp⟩ := List.any_eq_true.mp hany
          simp only [Bool.and_eq_true, beq_iff_eq] at hxp
          exact absurd hxp.2 (h2 x hxm hxp.1)
      · rw [if_neg hany]
        constructor
        · intro _
          constructor
          · intro r hr hdel heq
            have := List.find?_eq_none.mp hfind r hr
            simp [hdel, heq] at this
          · intro r hr hdel heq
            have hpx : (fun r : FlavorRow =>
                r.deleted == 0 && r.name == name) r = true := by
              simp [hdel, heq]
            exact hany (List.any_eq_true.mpr ⟨r, hr, hpx⟩)
        · intro _; rfl
  · intro ref hfind
    unfold flavorDestroyDb
    rw [hfind]
    cases hleg : legacyFlavorDestroy ldb name with
    | ok l2 =>
      refine ⟨_, l2, rfl, ?_, ?_, ?_, ?_, ?_⟩
      · exact hmapf db.flavors ref
      · exact hmaps db.extra_specs ref
      · exact hmapp db.projects ref
      · intro l2x h2x
        cases h2x
        rfl
      · intro e he
        cases he
    | error e =>
      refine ⟨_, ldb, rfl, ?_, ?_, ?_, ?_, ?_⟩
      · exact hmapf db.flavors ref
      · exact hmaps db.extra_specs ref
      · exact hmapp db.projects ref
      · intro l2x h2x
        cases h2x
      · intro _ _
        rfl

/-- A live extra-spec row of the destroy witness flavor. -/
def specW : ExtraSpecRow :=
  { id := 1, flavor_id := 1, key := "a", value := "1", deleted := 0 }

/-- A live access-grant row of the destroy witness flavor. -/
def projW : ProjectRow :=
  { id := 1, flavor_id := 1, project_id := "p1", deleted := 0 }

/-- Witness data for the destroy cascade: one live flavor with one live
extra spec and one live access grant. -/
def dbDestroyW : ApiDB :=
  { flavors := [mkRow 1 "n1" "f1" 512], extra_specs := [specW],
    projects := [projW], next_flavor_id := 2, next_spec_id := 2,
    next_project_id := 2 }

/-- Witness for C8: destroying the only flavor of `dbDestroyW` succeeds
with an empty legacy store and cascades to its spec and grant rows. -/
theorem destroy_cascade_and_not_found_witness :
    ∃ db2 ldb2, flavorDestroyDb dbDestroyW {} "n1" = .ok (db2, ldb2)
      ∧ db2.flavors = dbDestroyW.flavors.map
          (fun r => if r.id = (mkRow 1 "n1" "f1" 512).id then
            softDeleteFlavor r else r)
      ∧ db2.extra_specs = dbDestroyW.extra_specs.map
          (fun s => if s.flavor_id = (mkRow 1 "n1" "f1" 512).id ∧ s.deleted = 0
            then { s with deleted := s.id } else s)
      ∧ db2.projects = dbDestroyW.projects.map
          (fun p => if p.flavor_id = (mkRow 1 "n1" "f1" 512).id ∧ p.deleted = 0
            then { p with deleted := p.id } else p)
      ∧ (∀ ldb2x, legacyFlavorDestroy {} "n1" = .ok ldb2x → ldb2 = ldb2x)
      ∧ (∀ e, legacyFlavorDestroy {} "n1" = .error e → ldb2 = {}) :=
  (destroy_cascade_and_not_found dbDestroyW {} "n1").2
    (mkRow 1 "n1" "f1" 512) rfl

/-! ### Claim C5 -/

/-- Claim C5: get_by_flavor_id queries the primary store first, leaving it
untouched on a hit; exactly when that query fails (necessarily with
FlavorNotFound) it reads the legacy store and, as a side effect, creates
in the primary store a copy of the legacy field values excluding the
internal id, together with the legacy access grants of the business key,
returning the object built from the legacy record; a double miss
propagates the legacy error. -/
theorem get_by_flavor_id_read_through (ctx : Ctx) (db : ApiDB)
    (ldb : LegacyDB) (fid : String) (rd : Option String) :
    (∀ r, flavorGetByFlavorIdDb ctx db fid rd = .ok r →
        flavorObjGetByFlavorId ctx db ldb fid rd = .ok (r, db))
    ∧ (∀ fe, flavorGetByFlavorIdDb ctx db fid rd = .error fe →
        fe = .flavorNotFound fid)
    ∧ (∀ lrow, flavorGetByFlavorIdDb ctx db fid rd = .error (.flavorNotFound fid) →
        legacyFlavorGetByFlavorId ldb fid rd = .ok lrow →
        (flavorObjGetByFlavorId ctx db ldb fid rd
            = (flavorCreateDb db (legacyRowValues ldb lrow)
                (legacyAccessGetByFlavorId ldb fid)).map (fun p => (lrow, p.1)))
        ∧ ((legacyRowValues ldb lrow).name = lrow.name
          ∧ (legacyRowValues ldb lrow).memory_mb = lrow.memory_mb
          ∧ (legacyRowValues ldb lrow).vcpus = lrow.vcpus
          ∧ (legacyRowValues ldb lrow).root_gb = lrow.root_gb
          ∧ (legacyRowValues ldb lrow).ephemeral_gb = lrow.ephemeral_gb
          ∧ (legacyRowValues ldb lrow).flavorid = lrow.flavorid
          ∧ (legacyRowValues ldb lrow).swap = lrow.swap
          ∧ (legacyRowValues ldb lrow).vcpu_weight = lrow.vcpu_weight
          ∧ (legacyRowValues ldb lrow).disabled = lrow.disabled
          ∧ (legacyRowValues ldb lrow).is_public = lrow.is_public)
        ∧ (∀ db2 robj,
            flavorObjGetByFlavorId ctx db ldb fid rd = .ok (robj, db2) →
            robj = lrow
            ∧ db2.flavors
                = db.flavors ++ [newFlavorRow db (legacyRowValues ldb lrow)]
            ∧ (newFlavorRow db (legacyRowValues ldb lrow)).id
                = db.next_flavor_id))
    ∧ (∀ le, flavorGetByFlavorIdDb ctx db fid rd = .error (.flavorNotFound fid) →
        legacyFlavorGetByFlavorId ldb fid rd = .error le →
        flavorObjGetByFlavorId ctx db ldb fid rd = .error le) := by
  have herr : ∀ fe, flavorGetByFlavorIdDb ctx db fid rd = .error fe →
      fe = .flavorNotFound fid := by
    intro fe hfe
    unfold flavorGetByFlavorIdDb at hfe
    cases hh : (((flavorGetQueryDb ctx db rd).filter
        fun r => r.flavorid == fid).insertionSort deletedIdLe).head? with
    | some r => rw [hh] at hfe; cases hfe
    | none =>
      rw [hh] at hfe
      cases hfe
      rfl
  refine ⟨?_, herr, ?_, ?_⟩
  · intro r hr
    unfold flavorObjGetByFlavorId
    rw [hr]
  · intro lrow hmiss hleg
    have hobj : flavorObjGetByFlavorId ctx db ldb fid rd
        = (flavorCreateDb db (legacyRowValues ldb lrow)
            (legacyAccessGetByFlavorId ldb fid)).map (fun p => (lrow, p.1)) := by
      unfold flavorObjGetByFlavorId migrateFlavorToApi
      simp only [hmiss, hleg]
      cases hc : flavorCreateDb db (legacyRowValues ldb lrow)
          (legacyAccessGetByFlavorId ldb fid) with
      | ok p => rfl
      | error e => rfl
    refine ⟨hobj, ⟨rfl, rfl, rfl, rfl, rfl, rfl, rfl, rfl, rfl, rfl⟩, ?_⟩
    intro db2 robj hok
    rw [hobj] at hok
    cases hc : flavorCreateDb db (legacyRowValues ldb lrow)
        (legacyAccessGetByFlavorId ldb fid) with
    | error e =>
      rw [hc] at hok
      cases hok
    | ok p =>
      rw [hc] at hok
      simp only [Except.map, Except.ok.injEq, Prod.mk.injEq] at hok
      obtain ⟨hrobj, hdb2⟩ := hok
      refine ⟨hrobj.symm, ?_, rfl⟩
      unfold flavorCreateDb at hc
      cases hs : flavorsSaveColumns db (legacyRowValues ldb lrow) with
      | some cols =>
        rw [hs] at hc
        cases hc
      | none =>
        rw [hs] at hc
        simp only [Except.ok.injEq] at hc
        rw [← hdb2, ← hc]
  · intro le hmiss hleg
    unfold flavorObjGetByFlavorId
    simp only [hmiss, hleg]

/-- Witness data for the read-through: one live legacy flavor with a
grant; the primary store is empty. -/
def lrowW : FlavorRow := mkRow 5 "lname" "f9" 256

/-- The grant row of the read-through witness legacy flavor. -/
def projW9 : ProjectRow :=
  { id := 3, flavor_id := 5, project_id := "p9", deleted := 0 }

/-- The legacy store of the read-through witness. -/
def ldbW : LegacyDB :=
  { flavors := [lrowW], projects := [projW9] }

/-- Witness for C5: with an empty primary store the lookup falls through
to the legacy store and migrates the record via create. -/
theorem get_by_flavor_id_read_through_witness :
    flavorObjGetByFlavorId { is_admin := true, project_id := none } {}
        ldbW "f9" none
      = (flavorCreateDb {} (legacyRowValues ldbW lrowW)
          (legacyAccessGetByFlavorId ldbW "f9")).map (fun p => (lrowW, p.1)) :=
  (((get_by_flavor_id_read_through { is_admin := true, project_id := none }
      {} ldbW "f9" none).2.2.1 lrowW rfl rfl).1)

/-! ### Claim C7 -/

/-- An admin request context. -/
def adminCtx : Ctx := { is_admin := true, project_id := none }

/-- The destroy-and-recreate scenario of the repository test
`test_flavor_get_by_flavor_id_deleted_and_recreat`: create `v` in an
empty primary store, destroy it by name with an empty legacy store,
recreate the same values, then look the business key up with read_deleted
`yes`.  Returns the final primary store with the row the lookup yields. -/
def recreateScenario (v : FlavorValues) :
    Except FlavorErr (ApiDB × FlavorRow) :=
  match flavorCreateDb {} v [] with
  | .error e => .error e
  | .ok (db1, _) =>
    match flavorDestroyDb db1 {} v.name with
    | .error e => .error e
    | .ok (db2, _) =>
      match flavorCreateDb db2 v [] with
      | .error e => .error e
      | .ok (db3, _) =>
        match flavorGetByFlavorIdDb adminCtx db3 v.flavorid (some "yes") with
        | .error e => .error e
        | .ok r => .ok (db3, r)

/-- The original scenario row for `vBase`, soft-deleted (deleted = id = 1). -/
def rowOrigDel : FlavorRow := { newFlavorRow {} vBase with deleted := 1 }

/-- The recreated scenario row for `vBase`, live with the fresh id 2. -/
def rowRecreated : FlavorRow := { newFlavorRow {} vBase with id := 2 }

/-- Counterexample for C7: after the destroy and the recreation of the
same business key, the read_deleted yes lookup returns the recreated
live record (fresh id 2, deleted 0), not the original now-deleted one —
the ordering on (deleted-flag, id) sorts the live row first. -/
theorem recreate_lookup_counterexample :
    recreateScenario vBase
      = .ok ({ flavors := [rowOrigDel, rowRecreated], next_flavor_id := 3 },
          rowRecreated)
      ∧ rowRecreated.deleted = 0
      ∧ rowOrigDel.deleted ≠ 0
      ∧ rowOrigDel.flavorid = rowRecreated.flavorid
      ∧ rowRecreated ≠ rowOrigDel :=
  ⟨rfl, rfl, by decide, rfl, by decide⟩

/-- Claim C7 as amended: recreating a flavor with the same business key
after a destroy yields a distinct internal id, and the read_deleted yes
lookup returns the recreated live record — the (deleted-flag, id)
ordering places the non-deleted row first — while the original record
remains in the store soft-deleted. -/
theorem recreate_lookup_returns_live (v : FlavorValues)
    (hdel : v.deleted = 0) :
    ∃ db3 r, recreateScenario v = .ok (db3, r)
      ∧ r.id = 2 ∧ r.deleted = 0 ∧ r.flavorid = v.flavorid
      ∧ ∃ orig ∈ db3.flavors, orig.id = 1 ∧ orig.flavorid = v.flavorid
          ∧ orig.deleted = 1 := by
  simp only [recreateScenario, flavorCreateDb, flavorsSaveColumns,
    flavorDestroyDb, legacyFlavorDestroy, softDeleteFlavor,
    flavorGetByFlavorIdDb, flavorGetQueryDb, readDeletedKeep, projectsAny,
    newFlavorRow, adminCtx, deletedIdLe, hdel, List.any_nil, List.any_cons,
    List.find?_cons, List.find?_nil, beq_self_eq_true, Bool.and_true,
    Bool.true_and, Bool.and_false, Bool.false_and, Bool.true_or,
    Bool.or_true, Bool.false_or, Bool.or_false, Bool.cond_true,
    Bool.cond_false, List.filter_cons, List.filter_nil]
  simp
  refine ⟨_, _, rfl, rfl, rfl, rfl, ?_⟩
  exact ⟨_, List.mem_cons_self _ _, rfl, rfl, rfl⟩

/-- Witness for the amended C7 at the concrete base values. -/
theorem recreate_lookup_returns_live_witness :
    ∃ db3 r, recreateScenario vBase = .ok (db3, r)
      ∧ r.id = 2 ∧ r.deleted = 0 ∧ r.flavorid = vBase.flavorid
      ∧ ∃ orig ∈ db3.flavors, orig.id = 1 ∧ orig.flavorid = vBase.flavorid
          ∧ orig.deleted = 1 :=
  recreate_lookup_returns_live vBase rfl

end Nova
